import Mathlib

/-!
Shallow embedding of the SHACL shapes-graph core (`src/shapes-graph.js`):
RDF terms and triples, the pattern-query helpers the core relies on,
ConstraintComponent / Constraint / Shape construction, the shapes-graph
registry with its memoised shape cache, the property-path compiler
`toRDFQueryPath`, and the path evaluation semantics.  The query layer
(`rdfquery`, `node-set`, `rdfquery/util`) is not part of the shown source;
those helpers are modelled from the specification of their interface and
are marked as such in their doc comments.
-/

namespace SHACL

/-- RDF term kinds as used by the path compiler (`termType` in the source). -/
inductive TermType where
  | NamedNode
  | BlankNode
  | Literal
  | Collection
deriving DecidableEq, Repr

/-- An RDF term: a kind together with its value string.  Terms compare by
kind plus value; several places in the source key maps by `.value` alone. -/
structure Term where
  termType : TermType
  value : String
deriving DecidableEq, Repr

/-- An RDF triple. -/
structure Triple where
  s : Term
  p : Term
  o : Term
deriving DecidableEq, Repr

/-- A graph is a finite sequence of triples; pattern queries return matches
in this order, modelling the underlying store's enumeration order. -/
abbrev Graph := List Triple

def namedNode (v : String) : Term := Term.mk TermType.NamedNode v

def rdf_type : Term := namedNode "rdf:type"
def rdf_first : Term := namedNode "rdf:first"
def rdf_rest : Term := namedNode "rdf:rest"
def rdf_nil : Term := namedNode "rdf:nil"
def rdfs_Class : Term := namedNode "rdfs:Class"
def sh_ConstraintComponent : Term := namedNode "sh:ConstraintComponent"
def sh_parameter : Term := namedNode "sh:parameter"
def sh_path : Term := namedNode "sh:path"
def sh_optional : Term := namedNode "sh:optional"
def sh_severity : Term := namedNode "sh:severity"
def sh_deactivated : Term := namedNode "sh:deactivated"
def sh_Violation : Term := namedNode "sh:Violation"
def sh_targetClass : Term := namedNode "sh:targetClass"
def sh_targetNode : Term := namedNode "sh:targetNode"
def sh_targetSubjectsOf : Term := namedNode "sh:targetSubjectsOf"
def sh_targetObjectsOf : Term := namedNode "sh:targetObjectsOf"
def sh_target : Term := namedNode "sh:target"
def sh_alternativePath : Term := namedNode "sh:alternativePath"
def sh_zeroOrMorePath : Term := namedNode "sh:zeroOrMorePath"
def sh_oneOrMorePath : Term := namedNode "sh:oneOrMorePath"
def sh_zeroOrOnePath : Term := namedNode "sh:zeroOrOnePath"
def sh_inversePath : Term := namedNode "sh:inversePath"

/-- The literal the source matches against for boolean flags
(`sh:optional` and `sh:deactivated` are matched against the value true). -/
def trueTerm : Term := Term.mk TermType.Literal "true"

/-- Modelled from the spec: the graph query interface's pattern match —
any position may be a wildcard (`none`) or a bound term (`some t`);
matches are returned in store order. -/
def matchSPO (g : Graph) (s p o : Option Term) : List Triple :=
  g.filter (fun t =>
    (s.all (fun x => x == t.s)) && (p.all (fun x => x == t.p)) &&
      (o.all (fun x => x == t.o)))

/-- Modelled from the spec: the "has any solution" boolean query form. -/
def hasSolution (g : Graph) (s p o : Option Term) : Bool :=
  !(matchSPO g s p o).isEmpty

/-- Modelled from the spec: the "single bound term" query form (`getNode`);
returns the first solution's object, if any. -/
def getNodeObj (g : Graph) (s p : Term) : Option Term :=
  ((matchSPO g (some s) (some p) none).head?).map (fun t => t.o)

/-- Modelled from the spec: the "all bound terms" query form
(`getNodeArray` / `forEachNode` on the object variable). -/
def getNodeArrayObj (g : Graph) (s p : Term) : List Term :=
  (matchSPO g (some s) (some p) none).map (fun t => t.o)

/-- Modelled from the spec: all subjects of triples with a given predicate. -/
def subjectsOfPred (g : Graph) (p : Term) : List Term :=
  (matchSPO g none (some p) none).map (fun t => t.s)

/-- Modelled from the spec: all objects of triples with a given predicate. -/
def objectsOfPred (g : Graph) (p : Term) : List Term :=
  (matchSPO g none (some p) none).map (fun t => t.o)

/-- Modelled from the spec: NodeSet insertion — deduplicating, keeping the
first occurrence of each term. -/
def addNode (l : List Term) (x : Term) : List Term :=
  if x ∈ l then l else l ++ [x]

/-- Modelled from the spec: NodeSet `addAll`. -/
def addAllNodes (l : List Term) (xs : List Term) : List Term :=
  xs.foldl addNode l

/-- Modelled from the spec: a NodeSet built from a list of terms. -/
def nodeSetOf (xs : List Term) : List Term :=
  addAllNodes [] xs

/-- Modelled from the spec: type-instance lookup (`getInstancesOf`). -/
def getInstancesOf (g : Graph) (c : Term) : List Term :=
  (matchSPO g none (some rdf_type) (some c)).map (fun t => t.s)

/-- Modelled from the spec: `isInstanceOf` type-membership test. -/
def isInstanceOf (g : Graph) (n c : Term) : Bool :=
  hasSolution g (some n) (some rdf_type) (some c)

/-- Modelled from the spec: the local name of an IRI — the portion after
the last hash or slash separator. -/
def getLocalName (uri : String) : String :=
  ((uri.splitOn "#").getLastD uri).splitOn "/" |>.getLastD uri

/-- A constraint component, as built by the `ConstraintComponent` constructor:
its node, its parameter path terms in encounter order, the set of parameter
IRI values marked optional, and the required parameters.  The validator
slots live in the external validator registry and are not needed here. -/
structure ConstraintComponent where
  node : Term
  parameters : List Term
  optionals : List String
  requiredParameters : List Term
deriving DecidableEq, Repr

/-- The joined solutions of
`match(node, sh:parameter, ?parameter).match(?parameter, sh:path, ?path)`:
pairs of (parameter node, path term) in query order. -/
def componentParameterSolutions (g : Graph) (node : Term) : List (Term × Term) :=
  (matchSPO g (some node) (some sh_parameter) none).flatMap (fun t1 =>
    (matchSPO g (some t1.o) (some sh_path) none).map (fun t2 => (t1.o, t2.o)))

/-- Source `ConstraintComponent` construction: one parameter per solution, in
encounter order; a parameter is optional iff its parameter node carries
`sh:optional true`, else it is required. -/
def ConstraintComponent.build (g : Graph) (node : Term) : ConstraintComponent :=
  let sols := componentParameterSolutions g node
  let isOpt := fun (paramNode : Term) =>
    hasSolution g (some paramNode) (some sh_optional) (some trueTerm)
  { node := node
    parameters := sols.map (fun s => s.2)
    optionals := (sols.filter (fun s => isOpt s.1)).map (fun s => s.2.value)
    requiredParameters := (sols.filter (fun s => !isOpt s.1)).map (fun s => s.2) }

/-- Source `ConstraintComponent.isOptional`: lookup in the optionals map. -/
def ConstraintComponent.isOptional (c : ConstraintComponent) (uri : String) : Bool :=
  c.optionals.contains uri

/-- Source `ConstraintComponent.isComplete`: every required (non-optional)
parameter must have at least one matching triple on the shape node. -/
def ConstraintComponent.isComplete (c : ConstraintComponent) (g : Graph)
    (shapeNode : Term) : Bool :=
  c.parameters.all (fun p =>
    c.isOptional p.value || hasSolution g (some shapeNode) (some p) none)

/-- The parameter index maps parameter IRI values to components.  The source
stores it as a JS object mutated by assignment; we model it as an
association list where later assignments shadow earlier ones (each
assignment prepends, lookup takes the first hit). -/
abbrev ParametersMap := List (String × ConstraintComponent)

/-- One component's registration pass over the parameter index. -/
def registerComponent (m : ParametersMap) (c : ConstraintComponent) : ParametersMap :=
  c.parameters.foldl (fun m' p => (p.value, c) :: m') m

/-- The `ShapesGraph` constructor's parameter-index build: every parameter
of every component is assigned in order, later assignments overwriting. -/
def buildParametersMap (cs : List ConstraintComponent) : ParametersMap :=
  cs.foldl registerComponent []

/-- Association-list lookup, first (i.e. most recent) entry wins. -/
def lookupMap (m : ParametersMap) (v : String) : Option ConstraintComponent :=
  (m.find? (fun e => e.1 == v)).map (fun e => e.2)

/-- Source `ShapesGraph.getComponentWithParameter`: the index is keyed by the
parameter term's value string. -/
def getComponentWithParameter (m : ParametersMap) (parameter : Term) :
    Option ConstraintComponent :=
  lookupMap m parameter.value

/-- Whether a component declares a parameter with the given IRI value. -/
def declaresParam (c : ConstraintComponent) (v : String) : Bool :=
  decide (v ∈ c.parameters.map (fun p => p.value))

/-- A constraint: one application of a component to a shape, with the
optional explicit single value and the bound parameter values (keyed by
parameter local name).  The source also stores a back-reference to the
owning shape; the owning shape is determined by the construction site. -/
structure Constraint where
  component : ConstraintComponent
  paramValue : Option Term
  parameterValues : List (String × Term)
deriving DecidableEq, Repr

/-- The `Constraint` constructor: each declared parameter is bound to the
explicit value when one was supplied, else to the first
`(shapeNode, parameter, ?value)` solution; parameters with no value are
simply absent from the bound map. -/
def Constraint.build (g : Graph) (shapeNode : Term) (component : ConstraintComponent)
    (paramValue : Option Term) : Constraint :=
  { component := component
    paramValue := paramValue
    parameterValues :=
      component.parameters.foldl (fun acc param =>
        match paramValue.orElse (fun _ => getNodeObj g shapeNode param) with
        | some v => acc ++ [(getLocalName param.value, v)]
        | none => acc) [] }

/-- Source `Constraint.getParameterValue`. -/
def Constraint.getParameterValue (c : Constraint) (name : String) : Option Term :=
  (c.parameterValues.find? (fun e => e.1 == name)).map (fun e => e.2)

/-- A shape: its node, severity, deactivation flag, optional path term and
constraint list. -/
structure Shape where
  shapeNode : Term
  severity : Term
  deactivated : Bool
  path : Option Term
  constraints : List Constraint
deriving DecidableEq, Repr

/-- One step of the `Shape` constructor's scan over the shape node's
outgoing triples: the state is the constraint list built so far together
with the per-shape "already handled" set of component nodes.  A predicate
found in the parameter index yields, for a single-parameter component, one
constraint per triple (bound to that triple's object); for a
multi-parameter component, at most one constraint, only when `isComplete`
holds, after which the component is marked handled. -/
def constraintStep (g : Graph) (pm : ParametersMap) (shapeNode : Term)
    (st : List Constraint × List Term) (tr : Triple) : List Constraint × List Term :=
  match getComponentWithParameter pm tr.p with
  | none => st
  | some component =>
    if component.node ∈ st.2 then st
    else if component.parameters.length = 1 then
      (st.1 ++ [Constraint.build g shapeNode component (some tr.o)], st.2)
    else if component.isComplete g shapeNode then
      (st.1 ++ [Constraint.build g shapeNode component none], addNode st.2 component.node)
    else st

/-- The constraint list assembled by the `Shape` constructor's triple scan. -/
def buildConstraints (g : Graph) (pm : ParametersMap) (shapeNode : Term) :
    List Constraint :=
  ((matchSPO g (some shapeNode) none none).foldl (constraintStep g pm shapeNode)
    ([], [])).1

/-- The `Shape` constructor: severity (defaulting to `sh:Violation`),
deactivation flag, path, and the constraints discovered from the parameter
index (the index is passed in explicitly; the source reaches it through
`context.shapesGraph`). -/
def Shape.build (g : Graph) (pm : ParametersMap) (shapeNode : Term) : Shape :=
  { shapeNode := shapeNode
    severity := (getNodeObj g shapeNode sh_severity).getD sh_Violation
    deactivated := hasSolution g (some shapeNode) (some sh_deactivated) (some trueTerm)
    path := getNodeObj g shapeNode sh_path
    constraints := buildConstraints g pm shapeNode }

/-- Source `Shape.isPropertyShape`: true iff a path was resolved. -/
def Shape.isPropertyShape (s : Shape) : Bool :=
  s.path.isSome

/-- Source `Shape.getTargetNodes`: the deduplicated union of (a) data-graph
instances of the shape node itself when it is a class in the shapes graph,
(b) instances of each declared target class, (c) the declared target nodes,
(d) subjects of data triples whose predicate is a declared
target-subjects-of value, (e) objects of data triples whose predicate is a
declared target-objects-of value.  Note that no source consults the generic
`sh:target` declaration. -/
def Shape.getTargetNodes (shapes : Graph) (s : Shape) (d : Graph) : List Term :=
  let r1 :=
    if isInstanceOf shapes s.shapeNode rdfs_Class then getInstancesOf d s.shapeNode
    else []
  let r2 := (getNodeArrayObj shapes s.shapeNode sh_targetClass).flatMap
    (fun c => getInstancesOf d c)
  let r3 := getNodeArrayObj shapes s.shapeNode sh_targetNode
  let r4 := (getNodeArrayObj shapes s.shapeNode sh_targetSubjectsOf).flatMap
    (fun p => subjectsOfPred d p)
  let r5 := (getNodeArrayObj shapes s.shapeNode sh_targetObjectsOf).flatMap
    (fun p => objectsOfPred d p)
  nodeSetOf (r1 ++ r2 ++ r3 ++ r4 ++ r5)

/-- The `ShapesGraph` constructor's component discovery: one component per
node typed `sh:ConstraintComponent` (the instance lookup yields a
deduplicated node set). -/
def componentsOf (g : Graph) : List ConstraintComponent :=
  (nodeSetOf (getInstancesOf g sh_ConstraintComponent)).map
    (fun node => ConstraintComponent.build g node)

/-- The parameter index of the shapes graph. -/
def parametersMapOf (g : Graph) : ParametersMap :=
  buildParametersMap (componentsOf g)

/-- Source `ShapesGraph.getShapeNodesWithConstraints`: all subjects bearing at
least one required parameter of at least one component, as a deduplicated
node set. -/
def getShapeNodesWithConstraints (g : Graph) : List Term :=
  (componentsOf g).foldl (fun set c =>
    c.requiredParameters.foldl (fun set p => addAllNodes set (subjectsOfPred g p)) set) []

/-- The target filter of `ShapesGraph.getShapesWithTarget`: a class node,
or any of the five target declarations, including the generic `sh:target`. -/
def hasTargetDecl (g : Graph) (n : Term) : Bool :=
  isInstanceOf g n rdfs_Class ||
  hasSolution g (some n) (some sh_targetClass) none ||
  hasSolution g (some n) (some sh_targetNode) none ||
  hasSolution g (some n) (some sh_targetSubjectsOf) none ||
  hasSolution g (some n) (some sh_targetObjectsOf) none ||
  hasSolution g (some n) (some sh_target) none

/-- Source `ShapesGraph.getShapesWithTarget`: the constraint-bearing nodes that
pass the target filter, as shapes.  (The source obtains each shape through
the memo cache; the cache is modelled separately by `getShapeS` and does
not change which shapes are produced.) -/
def getShapesWithTarget (g : Graph) (pm : ParametersMap) : List Shape :=
  ((getShapeNodesWithConstraints g).filter (fun n => hasTargetDecl g n)).map
    (fun n => Shape.build g pm n)

/-- The memo cache of `ShapesGraph.getShape`, keyed by the shape node's
value string. -/
structure ShapeCache where
  shapes : List (String × Shape)
deriving DecidableEq, Repr

/-- Cache lookup by value string. -/
def cacheLookup (st : ShapeCache) (v : String) : Option Shape :=
  (st.shapes.find? (fun e => e.1 == v)).map (fun e => e.2)

/-- Source `ShapesGraph.getShape` with the cache passed explicitly: return the
memoized shape when present, else construct it and record it under the
node's value string. -/
def getShapeS (g : Graph) (pm : ParametersMap) (st : ShapeCache) (node : Term) :
    Shape × ShapeCache :=
  match cacheLookup st node.value with
  | some s => (s, st)
  | none =>
    let s := Shape.build g pm node
    (s, ShapeCache.mk (st.shapes ++ [(node.value, s)]))

/-- Source `getShape` instrumented with a construction log: each cache miss
appends the constructed node's value string. -/
def getShapeTraced (g : Graph) (pm : ParametersMap)
    (st : ShapeCache × List String) (node : Term) : ShapeCache × List String :=
  match cacheLookup st.1 node.value with
  | some _ => st
  | none =>
    (ShapeCache.mk (st.1.shapes ++ [(node.value, Shape.build g pm node)]),
      st.2 ++ [node.value])

/-- A whole sequence of `getShape` requests, starting from the empty cache,
returning the final cache and the construction log. -/
def runGetShapeCalls (g : Graph) (pm : ParametersMap) (calls : List Term) :
    ShapeCache × List String :=
  calls.foldl (getShapeTraced g pm) (ShapeCache.mk [], [])

/-- The path-expression tree produced by `toRDFQueryPath`: a plain
predicate, an ordered sequence (a JS array in the source), an alternative,
the three repetition operators, or an inversion. -/
inductive PathExpr where
  | predicate (p : Term)
  | sequence (ps : List PathExpr)
  | alternatives (ps : List PathExpr)
  | zeroOrMore (q : PathExpr)
  | oneOrMore (q : PathExpr)
  | zeroOrOne (q : PathExpr)
  | inverse (q : PathExpr)
deriving Repr

/-- Path compilation failures: the source throws on an unsupported path
term; the fuel case models the unbounded recursion of the source, which is
only exhausted on cyclic path structures. -/
inductive PathError where
  | unsupported (t : Term)
  | outOfFuel
deriving DecidableEq, Repr

/-- Modelled from the spec: RDF-list-to-sequence decoding — follow
`rdf:first` / `rdf:rest` until `rdf:nil`, with fuel bounding the walk. -/
def rdfListToArray (g : Graph) : Nat → Term → List Term
  | 0, _ => []
  | fuel + 1, node =>
    if node = rdf_nil then []
    else
      match getNodeObj g node rdf_first with
      | none => []
      | some first =>
        match getNodeObj g node rdf_rest with
        | none => [first]
        | some rest => first :: rdfListToArray g fuel rest

/-- Fuel that suffices for any acyclic structure in `g`: every recursive
hop consumes at least one distinct triple of the graph. -/
def graphFuel (g : Graph) : Nat :=
  g.length + 1

mutual

/-- Source `toRDFQueryPath`: a Collection or a blank list head compiles to a
sequence, a named node to a predicate leaf, a blank node bearing one of the
operator properties to the corresponding operator, and anything else is an
unsupported path error.  The fuel models the source's unbounded recursion. -/
def toRDFQueryPath (g : Graph) : Nat → Term → Except PathError PathExpr
  | 0, _ => Except.error PathError.outOfFuel
  | fuel + 1, shPath =>
    if shPath.termType = TermType.Collection then
      Except.map PathExpr.sequence
        (toRDFQueryPathList g fuel (rdfListToArray g (graphFuel g) shPath))
    else if shPath.termType = TermType.NamedNode then
      Except.ok (PathExpr.predicate shPath)
    else if shPath.termType = TermType.BlankNode then
      if (getNodeObj g shPath rdf_first).isSome then
        Except.map PathExpr.sequence
          (toRDFQueryPathList g fuel (rdfListToArray g (graphFuel g) shPath))
      else
        match getNodeObj g shPath sh_alternativePath with
        | some alt =>
          Except.map PathExpr.alternatives
            (toRDFQueryPathList g fuel (rdfListToArray g (graphFuel g) alt))
        | none =>
          match getNodeObj g shPath sh_zeroOrMorePath with
          | some sub => Except.map PathExpr.zeroOrMore (toRDFQueryPath g fuel sub)
          | none =>
            match getNodeObj g shPath sh_oneOrMorePath with
            | some sub => Except.map PathExpr.oneOrMore (toRDFQueryPath g fuel sub)
            | none =>
              match getNodeObj g shPath sh_zeroOrOnePath with
              | some sub => Except.map PathExpr.zeroOrOne (toRDFQueryPath g fuel sub)
              | none =>
                match getNodeObj g shPath sh_inversePath with
                | some sub => Except.map PathExpr.inverse (toRDFQueryPath g fuel sub)
                | none => Except.error (PathError.unsupported shPath)
    else Except.error (PathError.unsupported shPath)
termination_by fuel _ => (fuel, 0)

/-- Compilation of a list of path terms (the loops over decoded RDF lists
in the source). -/
def toRDFQueryPathList (g : Graph) : Nat → List Term → Except PathError (List PathExpr)
  | _, [] => Except.ok []
  | fuel, t :: ts =>
    match toRDFQueryPath g fuel t with
    | Except.error e => Except.error e
    | Except.ok p =>
      match toRDFQueryPathList g fuel ts with
      | Except.error e => Except.error e
      | Except.ok ps => Except.ok (p :: ps)
termination_by fuel ts => (fuel, ts.length + 1)

end

/-- The path compiler at its call site: fuel large enough for every
acyclic path structure in the shapes graph. -/
def toRDFQueryPathTop (g : Graph) (t : Term) : Except PathError PathExpr :=
  toRDFQueryPath g (graphFuel g) t

/-- The fresh nodes produced by one closure round: images of the
accumulated nodes under the step function that are inside the bounding set
and not yet accumulated, deduplicated. -/
def freshOf (step : Term → List Term) (bound : List Term) (acc : List Term) :
    List Term :=
  ((acc.flatMap step).filter
    (fun y => decide (y ∈ bound) && !decide (y ∈ acc))).dedup

/-- Modelled from the spec: the reachability closure used by the
zero-or-more / one-or-more evaluation — repeated application of the step
function until no new nodes are produced, never revisiting a node already
accumulated.  The bounding set (the terms of the data graph together with
the seeds) makes the iteration terminate on cyclic data graphs. -/
def saturate (step : Term → List Term) (bound : List Term) (acc : List Term) :
    List Term :=
  if h : freshOf step bound acc = [] then acc
  else saturate step bound (acc ++ freshOf step bound acc)
termination_by (bound.toFinset \ acc.toFinset).card
decreasing_by
  obtain ⟨x, hx⟩ := List.exists_mem_of_ne_nil _ h
  have hx' : x ∈ bound ∧ x ∉ acc := by
    have h1 := List.mem_dedup.mp hx
    have h2 := List.of_mem_filter h1
    simp only [Bool.and_eq_true, decide_eq_true_eq, Bool.not_eq_true',
      decide_eq_false_iff_not] at h2
    exact h2
  apply Finset.card_lt_card
  constructor
  · apply Finset.sdiff_subset_sdiff (le_refl _)
    intro y hy
    simp only [List.toFinset_append, Finset.mem_union]
    exact Or.inl hy
  · intro hall
    have hmem : x ∈ bound.toFinset \ acc.toFinset := by
      simp only [Finset.mem_sdiff, List.mem_toFinset]
      exact hx'
    have := hall hmem
    simp only [Finset.mem_sdiff, List.mem_toFinset, List.toFinset_append,
      Finset.mem_union] at this
    exact this.2 (Or.inr hx)

/-- All terms occurring in a graph, in any position. -/
def termsOf (g : Graph) : List Term :=
  g.flatMap (fun t => [t.s, t.p, t.o])

mutual

/-- Modelled from the spec: evaluation of a compiled path from a focus node
over a data graph.  A predicate leaf follows triples forward; a sequence
feeds each stage's outputs into the next; an alternative unions its
branches; zero-or-one adds the focus node itself; the repetition operators
take the reachability closure (`saturate`); inversion evaluates backwards
by testing every graph term. -/
def evalPath (d : Graph) : PathExpr → Term → List Term
  | PathExpr.predicate p, f => getNodeArrayObj d f p
  | PathExpr.sequence ps, f => evalSeq d ps [f]
  | PathExpr.alternatives ps, f => nodeSetOf (evalAlts d ps f)
  | PathExpr.zeroOrMore q, f => saturate (fun x => evalPath d q x) (termsOf d) [f]
  | PathExpr.oneOrMore q, f =>
    saturate (fun x => evalPath d q x) (termsOf d) (nodeSetOf (evalPath d q f))
  | PathExpr.zeroOrOne q, f => nodeSetOf (f :: evalPath d q f)
  | PathExpr.inverse q, f =>
    (nodeSetOf (termsOf d)).filter (fun x => decide (f ∈ evalPath d q x))

/-- Sequence evaluation: each stage maps the accumulated node list through
the stage's path, deduplicating between stages. -/
def evalSeq (d : Graph) : List PathExpr → List Term → List Term
  | [], acc => acc
  | q :: qs, acc => evalSeq d qs (nodeSetOf (acc.flatMap (fun x => evalPath d q x)))

/-- Alternative evaluation: the concatenation of the member paths'
results. -/
def evalAlts (d : Graph) : List PathExpr → Term → List Term
  | [], _ => []
  | q :: qs, f => evalPath d q f ++ evalAlts d qs f

end

/-- Source `Shape.getValueNodes`: a property shape evaluates its compiled path
from the focus node over the data graph (a compilation failure propagates,
as the source's thrown error does); a node shape's value is the focus node
itself. -/
def Shape.getValueNodes (shapes : Graph) (s : Shape) (focusNode : Term) (d : Graph) :
    Except PathError (List Term) :=
  match s.path with
  | some pt => Except.map (fun pe => evalPath d pe focusNode) (toRDFQueryPathTop shapes pt)
  | none => Except.ok [focusNode]

/-- The one-step relation of a compiled path over a data graph. -/
def stepRel (d : Graph) (q : PathExpr) (x y : Term) : Prop :=
  y ∈ evalPath d q x

theorem mem_addNode {l : List Term} {x y : Term} :
    y ∈ addNode l x ↔ y ∈ l ∨ y = x := by
  unfold addNode
  by_cases h : x ∈ l
  · simp only [if_pos h]
    constructor
    · exact fun hy => Or.inl hy
    · rintro (hy | rfl)
      · exact hy
      · exact h
  · simp [if_neg h]

theorem mem_addAllNodes {l xs : List Term} {y : Term} :
    y ∈ addAllNodes l xs ↔ y ∈ l ∨ y ∈ xs := by
  induction xs generalizing l with
  | nil => simp [addAllNodes]
  | cons x xs ih =>
    show y ∈ addAllNodes (addNode l x) xs ↔ _
    rw [ih, mem_addNode]
    simp only [List.mem_cons]
    tauto

theorem mem_nodeSetOf {xs : List Term} {y : Term} :
    y ∈ nodeSetOf xs ↔ y ∈ xs := by
  rw [nodeSetOf, mem_addAllNodes]
  simp

theorem nodup_addNode {l : List Term} {x : Term} (h : l.Nodup) :
    (addNode l x).Nodup := by
  unfold addNode
  by_cases hx : x ∈ l
  · simpa [if_pos hx]
  · rw [if_neg hx]
    simpa [List.nodup_append] using ⟨h, hx⟩

theorem nodup_nodeSetOf {xs : List Term} : (nodeSetOf xs).Nodup := by
  have key : ∀ (ys : List Term) (l : List Term), l.Nodup → (addAllNodes l ys).Nodup := by
    intro ys
    induction ys with
    | nil => intro l h; exact h
    | cons y ys ih => intro l h; exact ih _ (nodup_addNode h)
  exact key xs [] List.nodup_nil

theorem lookupMap_cons (k : String) (c : ConstraintComponent) (m : ParametersMap)
    (v : String) :
    lookupMap ((k, c) :: m) v = if k = v then some c else lookupMap m v := by
  by_cases h : k = v
  · rw [if_pos h]
    unfold lookupMap
    rw [List.find?_cons_of_pos _ (by simpa using h)]
    rfl
  · rw [if_neg h]
    unfold lookupMap
    rw [List.find?_cons_of_neg _ (by simpa using h)]

theorem lookupMap_registerComponent (m : ParametersMap) (c : ConstraintComponent)
    (v : String) :
    lookupMap (registerComponent m c) v =
      if declaresParam c v then some c else lookupMap m v := by
  unfold registerComponent
  have key : ∀ (ps : List Term) (m0 : ParametersMap),
      lookupMap (ps.foldl (fun m' p => (p.value, c) :: m') m0) v =
        if v ∈ ps.map (fun p => p.value) then some c else lookupMap m0 v := by
    intro ps
    induction ps with
    | nil => intro m0; simp
    | cons p ps ih =>
      intro m0
      show lookupMap (ps.foldl _ ((p.value, c) :: m0)) v = _
      rw [ih, lookupMap_cons]
      by_cases hv : v ∈ ps.map (fun p => p.value)
      · simp [hv]
      · by_cases hp : p.value = v
        · simp [hv, hp]
        · have hne : v ∉ (p :: ps).map (fun p => p.value) := by
            simp only [List.map_cons, List.mem_cons]
            rintro (rfl | hmem)
            · exact hp rfl
            · exact hv hmem
          rw [if_neg hv, if_neg hp, if_neg hne]
  rw [key]
  unfold declaresParam
  by_cases h : v ∈ c.parameters.map (fun p => p.value)
  · simp [h]
  · simp [h]

theorem lookupMap_buildParametersMap (cs : List ConstraintComponent) (v : String) :
    lookupMap (buildParametersMap cs) v =
      (cs.filter (fun c => declaresParam c v)).getLast? := by
  unfold buildParametersMap
  induction cs using List.reverseRecOn with
  | nil => simp [lookupMap]
  | append_singleton cs c ih =>
    rw [List.foldl_append, List.foldl_cons, List.foldl_nil, lookupMap_registerComponent,
      List.filter_append]
    by_cases hc : declaresParam c v
    · simp [hc]
    · simp [hc, ih]

theorem lookupMap_mem {cs : List ConstraintComponent} {v : String}
    {c : ConstraintComponent} (h : lookupMap (buildParametersMap cs) v = some c) :
    c ∈ cs ∧ declaresParam c v := by
  rw [lookupMap_buildParametersMap] at h
  have hmem : c ∈ cs.filter (fun c => declaresParam c v) := by
    obtain ⟨hne, heq⟩ := List.mem_getLast?_eq_getLast h
    rw [heq]
    exact List.getLast_mem hne
  exact ⟨(List.mem_filter.mp hmem).1, (List.mem_filter.mp hmem).2⟩

theorem matchSPO_eq_nil_of_hasSolution_false {g : Graph} {s p o : Option Term}
    (h : hasSolution g s p o = false) : matchSPO g s p o = [] := by
  unfold hasSolution at h
  simp only [Bool.not_eq_false', List.isEmpty_iff] at h
  exact h

theorem getNodeArrayObj_eq_nil {g : Graph} {s p : Term}
    (h : hasSolution g (some s) (some p) none = false) :
    getNodeArrayObj g s p = [] := by
  unfold getNodeArrayObj
  rw [matchSPO_eq_nil_of_hasSolution_false h]
  rfl

theorem getNodeObj_isSome (g : Graph) (s p : Term) :
    (getNodeObj g s p).isSome = hasSolution g (some s) (some p) none := by
  unfold getNodeObj hasSolution
  cases hm : matchSPO g (some s) (some p) none with
  | nil => rfl
  | cons a l => rfl

theorem cacheLookup_append_of_none {st : ShapeCache} {v : String}
    (h : cacheLookup st v = none) (k : String) (s : Shape) :
    cacheLookup (ShapeCache.mk (st.shapes ++ [(k, s)])) v =
      if k = v then some s else none := by
  have hfind : st.shapes.find? (fun e => e.1 == v) = none := by
    unfold cacheLookup at h
    exact Option.map_eq_none.mp h
  unfold cacheLookup
  rw [List.find?_append, hfind]
  by_cases hk : k = v
  · rw [if_pos hk]
    rw [List.find?_cons_of_pos _ (by simpa using hk)]
    rfl
  · rw [if_neg hk]
    rw [List.find?_cons_of_neg _ (by simpa using hk), List.find?_nil]
    rfl

theorem cacheLookup_append_isSome {st : ShapeCache} {v : String}
    (h : (cacheLookup st v).isSome) (e : String × Shape) :
    (cacheLookup (ShapeCache.mk (st.shapes ++ [e])) v).isSome := by
  unfold cacheLookup at h ⊢
  rw [List.find?_append]
  obtain ⟨x, hx⟩ := Option.isSome_iff_exists.mp h
  obtain ⟨y, hy, _⟩ := Option.map_eq_some.mp hx
  rw [hy]
  rfl

/-- C5: when several constraint components declare the same parameter IRI,
the parameter index resolves that IRI to the component latest in
construction order that declared it — `getComponentWithParameter` returns
the last declaring component, so a later registration silently wins. -/
theorem parameter_index_last_registration_wins (g : Graph) (p : Term) :
    getComponentWithParameter (parametersMapOf g) p =
      ((componentsOf g).filter (fun c => declaresParam c p.value)).getLast? := by
  unfold getComponentWithParameter parametersMapOf
  exact lookupMap_buildParametersMap _ _

/-- C4: calling `getShape` twice with the same node returns the identical
shape, and the second call leaves the cache untouched (it constructs
nothing), so one shape exists per distinct node per cache. -/
theorem getShape_referentially_stable (g : Graph) (pm : ParametersMap)
    (st : ShapeCache) (n : Term) :
    getShapeS g pm (getShapeS g pm st n).2 n = getShapeS g pm st n := by
  cases hl : cacheLookup st n.value with
  | some s =>
    have h1 : getShapeS g pm st n = (s, st) := by
      unfold getShapeS
      rw [hl]
    rw [h1]
    exact h1
  | none =>
    have h1 : getShapeS g pm st n = (Shape.build g pm n,
        ShapeCache.mk (st.shapes ++ [(n.value, Shape.build g pm n)])) := by
      unfold getShapeS
      rw [hl]
    rw [h1]
    unfold getShapeS
    rw [cacheLookup_append_of_none hl n.value (Shape.build g pm n), if_pos rfl]

/-- C10: the shape cache is keyed by the node's value string alone — two
terms with equal value strings (even of different kinds) share one shape,
the one constructed from whichever term arrived first. -/
theorem getShape_keyed_by_value_only (g : Graph) (pm : ParametersMap)
    (st : ShapeCache) (t1 t2 : Term) (hv : t1.value = t2.value) :
    getShapeS g pm (getShapeS g pm st t1).2 t2 = getShapeS g pm st t1 ∧
    (cacheLookup st t1.value = none →
      (getShapeS g pm st t1).1 = Shape.build g pm t1) := by
  constructor
  · cases hl : cacheLookup st t1.value with
    | some s =>
      have h1 : getShapeS g pm st t1 = (s, st) := by
        unfold getShapeS
        rw [hl]
      rw [h1]
      unfold getShapeS
      rw [← hv, hl]
    | none =>
      have h1 : getShapeS g pm st t1 = (Shape.build g pm t1,
          ShapeCache.mk (st.shapes ++ [(t1.value, Shape.build g pm t1)])) := by
        unfold getShapeS
        rw [hl]
      rw [h1]
      unfold getShapeS
      rw [← hv, cacheLookup_append_of_none hl t1.value (Shape.build g pm t1), if_pos rfl]
  · intro hl
    unfold getShapeS
    rw [hl]

/-- C10 witness: an IRI and a blank node carrying the same value get the
same shape, built from the first term. -/
theorem getShape_keyed_by_value_only_witness :
    (getShapeS [] [] (getShapeS [] [] (ShapeCache.mk [])
        (Term.mk TermType.NamedNode "ex:s")).2 (Term.mk TermType.BlankNode "ex:s") =
      getShapeS [] [] (ShapeCache.mk []) (Term.mk TermType.NamedNode "ex:s")) ∧
    (getShapeS [] [] (ShapeCache.mk []) (Term.mk TermType.NamedNode "ex:s")).1 =
      Shape.build [] [] (Term.mk TermType.NamedNode "ex:s") := by
  have h := getShape_keyed_by_value_only [] [] (ShapeCache.mk [])
    (Term.mk TermType.NamedNode "ex:s") (Term.mk TermType.BlankNode "ex:s") rfl
  exact ⟨h.1, h.2 rfl⟩

/-- C8: over any sequence of `getShape` requests — including the request
patterns produced by cyclic shape references — each node value is
constructed at most once; the memo cache, consulted before every
construction, prevents double construction (shape construction itself
issues no recursive shape requests, so no in-construction guard is
needed). -/
theorem getShape_constructs_at_most_once (g : Graph) (pm : ParametersMap)
    (calls : List Term) (v : String) :
    ((runGetShapeCalls g pm calls).2.count v) ≤ 1 := by
  have key : ∀ (cs : List Term) (st : ShapeCache) (log : List String),
      log.count v ≤ 1 → (v ∈ log → (cacheLookup st v).isSome) →
      ((cs.foldl (getShapeTraced g pm) (st, log)).2.count v ≤ 1) := by
    intro cs
    induction cs with
    | nil => intro st log h1 _; exact h1
    | cons n cs ih =>
      intro st log h1 h2
      show ((cs.foldl (getShapeTraced g pm) (getShapeTraced g pm (st, log) n)).2.count v ≤ 1)
      cases hl : cacheLookup st n.value with
      | some s =>
        have : getShapeTraced g pm (st, log) n = (st, log) := by
          unfold getShapeTraced
          rw [hl]
        rw [this]
        exact ih st log h1 h2
      | none =>
        have hstep : getShapeTraced g pm (st, log) n =
            (ShapeCache.mk (st.shapes ++ [(n.value, Shape.build g pm n)]),
              log ++ [n.value]) := by
          unfold getShapeTraced
          rw [hl]
        rw [hstep]
        by_cases hveq : n.value = v
        · subst hveq
          have hnot : n.value ∉ log := by
            intro hmem
            have := h2 hmem
            rw [hl] at this
            exact Bool.noConfusion this
          have hcount : log.count n.value = 0 := List.count_eq_zero.mpr hnot
          apply ih
          · rw [List.count_append, hcount]
            simp
          · intro _
            rw [cacheLookup_append_of_none hl n.value (Shape.build g pm n), if_pos rfl]
            rfl
        · apply ih
          · rw [List.count_append]
            have : ([n.value] : List String).count v = 0 := by
              simp [List.count_singleton, hveq]
            omega
          · intro hmem
            rw [List.mem_append] at hmem
            rcases hmem with hmem | hmem
            · exact cacheLookup_append_isSome (h2 hmem) _
            · simp only [List.mem_singleton] at hmem
              exact absurd hmem.symm hveq
  exact key calls (ShapeCache.mk []) [] (by simp) (by intro h; simp at h)

/-- C6: a path term that is neither a collection, nor a plain IRI
predicate, nor a blank node bearing a list head or one of the
alternative / zero-or-more / one-or-more / zero-or-one / inverse markers,
makes the path compiler fail with the unsupported-path error — no default
or partial interpretation is returned. -/
theorem unsupported_path_is_hard_error (g : Graph) (t : Term)
    (h1 : t.termType ≠ TermType.Collection)
    (h2 : t.termType ≠ TermType.NamedNode)
    (h3 : t.termType = TermType.BlankNode →
      getNodeObj g t rdf_first = none ∧
      getNodeObj g t sh_alternativePath = none ∧
      getNodeObj g t sh_zeroOrMorePath = none ∧
      getNodeObj g t sh_oneOrMorePath = none ∧
      getNodeObj g t sh_zeroOrOnePath = none ∧
      getNodeObj g t sh_inversePath = none) :
    toRDFQueryPathTop g t = Except.error (PathError.unsupported t) := by
  unfold toRDFQueryPathTop graphFuel
  rw [toRDFQueryPath]
  rw [if_neg h1, if_neg h2]
  by_cases hb : t.termType = TermType.BlankNode
  · rw [if_pos hb]
    obtain ⟨f1, f2, f3, f4, f5, f6⟩ := h3 hb
    rw [f1, f2, f3, f4, f5, f6]
    rfl
  · rw [if_neg hb]

/-- C6 witness: a literal path term is rejected outright. -/
theorem unsupported_path_is_hard_error_witness :
    toRDFQueryPathTop [] (Term.mk TermType.Literal "oops") =
      Except.error (PathError.unsupported (Term.mk TermType.Literal "oops")) :=
  unsupported_path_is_hard_error [] (Term.mk TermType.Literal "oops")
    (by decide) (by decide) (by intro h; exact absurd h (by decide))

/-- C7: a shape built from the shapes graph is a property shape exactly
when an `sh:path` triple resolves; a node shape's value nodes are the
singleton focus node, and a property shape's value nodes are the result of
evaluating its compiled path from the focus node over the data graph. -/
theorem value_nodes_by_shape_kind (g : Graph) (pm : ParametersMap) (n f : Term)
    (d : Graph) :
    ((Shape.build g pm n).isPropertyShape =
      hasSolution g (some n) (some sh_path) none) ∧
    ((Shape.build g pm n).isPropertyShape = false →
      Shape.getValueNodes g (Shape.build g pm n) f d = Except.ok [f]) ∧
    (∀ pt pe, (Shape.build g pm n).path = some pt →
      toRDFQueryPathTop g pt = Except.ok pe →
      Shape.getValueNodes g (Shape.build g pm n) f d =
        Except.ok (evalPath d pe f)) := by
  refine ⟨?_, ?_, ?_⟩
  · show (getNodeObj g n sh_path).isSome = _
    exact getNodeObj_isSome g n sh_path
  · intro hns
    have hpath : (Shape.build g pm n).path = none := by
      have : ((Shape.build g pm n).path).isSome = false := hns
      exact Option.not_isSome_iff_eq_none.mp (by rw [this]; exact Bool.noConfusion)
    unfold Shape.getValueNodes
    rw [hpath]
  · intro pt pe hpt hok
    unfold Shape.getValueNodes
    rw [hpt]
    show Except.map (fun pe => evalPath d pe f) (toRDFQueryPathTop g pt) =
      Except.ok (evalPath d pe f)
    rw [hok]
    rfl

/-- C7 witness: a node shape yields the focus node itself; a property
shape with path `ex:knows` yields the path-evaluation result. -/
theorem value_nodes_by_shape_kind_witness :
    (Shape.getValueNodes [] (Shape.build [] [] (namedNode "ex:s"))
        (namedNode "ex:f") [] = Except.ok [namedNode "ex:f"]) ∧
    (Shape.getValueNodes [Triple.mk (namedNode "ex:s") sh_path (namedNode "ex:knows")]
        (Shape.build [Triple.mk (namedNode "ex:s") sh_path (namedNode "ex:knows")] []
          (namedNode "ex:s")) (namedNode "ex:f") [] =
      Except.ok (evalPath [] (PathExpr.predicate (namedNode "ex:knows"))
        (namedNode "ex:f"))) := by
  constructor
  · exact (value_nodes_by_shape_kind [] [] (namedNode "ex:s") (namedNode "ex:f") []).2.1
      (by decide)
  · have hcomp : toRDFQueryPathTop
        [Triple.mk (namedNode "ex:s") sh_path (namedNode "ex:knows")]
        (namedNode "ex:knows") =
        Except.ok (PathExpr.predicate (namedNode "ex:knows")) := by
      unfold toRDFQueryPathTop graphFuel
      rw [toRDFQueryPath]
      rw [if_neg (by decide), if_pos (by decide)]
    exact (value_nodes_by_shape_kind
      [Triple.mk (namedNode "ex:s") sh_path (namedNode "ex:knows")] []
      (namedNode "ex:s") (namedNode "ex:f") []).2.2
      (namedNode "ex:knows") (PathExpr.predicate (namedNode "ex:knows"))
      (by decide) hcomp

/-- C1: a constraint-bearing shape node whose only target declaration is a
generic `sh:target` triple (no class typing, no target-class, target-node,
target-subjects-of or target-objects-of declaration) is included by
`getShapesWithTarget`, yet its `getTargetNodes` is empty on every data
graph: the generic target is recognized for filtering but never resolved. -/
theorem generic_target_recognized_never_resolved (g : Graph) (n : Term)
    (hc : n ∈ getShapeNodesWithConstraints g)
    (hclass : isInstanceOf g n rdfs_Class = false)
    (htc : hasSolution g (some n) (some sh_targetClass) none = false)
    (htn : hasSolution g (some n) (some sh_targetNode) none = false)
    (hts : hasSolution g (some n) (some sh_targetSubjectsOf) none = false)
    (hto : hasSolution g (some n) (some sh_targetObjectsOf) none = false)
    (hgt : hasSolution g (some n) (some sh_target) none = true) :
    Shape.build g (parametersMapOf g) n ∈ getShapesWithTarget g (parametersMapOf g) ∧
    ∀ d : Graph,
      Shape.getTargetNodes g (Shape.build g (parametersMapOf g) n) d = [] := by
  constructor
  · unfold getShapesWithTarget
    apply List.mem_map_of_mem
    apply List.mem_filter.mpr
    refine ⟨hc, ?_⟩
    unfold hasTargetDecl
    rw [hclass, htc, htn, hts, hto, hgt]
    rfl
  · intro d
    unfold Shape.getTargetNodes
    have hnode : (Shape.build g (parametersMapOf g) n).shapeNode = n := rfl
    rw [hnode, if_neg (by rw [hclass]; exact Bool.noConfusion),
      getNodeArrayObj_eq_nil htc, getNodeArrayObj_eq_nil htn,
      getNodeArrayObj_eq_nil hts, getNodeArrayObj_eq_nil hto]
    rfl

/-- C1 witness: a shape node carrying a required `sh:minCount` parameter
and only a generic `sh:target` declaration. -/
theorem generic_target_recognized_never_resolved_witness :
    (Shape.build
        [Triple.mk (namedNode "ex:MinCountComponent") rdf_type sh_ConstraintComponent,
         Triple.mk (namedNode "ex:MinCountComponent") sh_parameter (namedNode "ex:p"),
         Triple.mk (namedNode "ex:p") sh_path (namedNode "sh:minCount"),
         Triple.mk (namedNode "ex:shape") (namedNode "sh:minCount")
           (Term.mk TermType.Literal "1"),
         Triple.mk (namedNode "ex:shape") sh_target (namedNode "ex:t")]
        (parametersMapOf
          [Triple.mk (namedNode "ex:MinCountComponent") rdf_type sh_ConstraintComponent,
           Triple.mk (namedNode "ex:MinCountComponent") sh_parameter (namedNode "ex:p"),
           Triple.mk (namedNode "ex:p") sh_path (namedNode "sh:minCount"),
           Triple.mk (namedNode "ex:shape") (namedNode "sh:minCount")
             (Term.mk TermType.Literal "1"),
           Triple.mk (namedNode "ex:shape") sh_target (namedNode "ex:t")])
        (namedNode "ex:shape") ∈
      getShapesWithTarget
        [Triple.mk (namedNode "ex:MinCountComponent") rdf_type sh_ConstraintComponent,
         Triple.mk (namedNode "ex:MinCountComponent") sh_parameter (namedNode "ex:p"),
         Triple.mk (namedNode "ex:p") sh_path (namedNode "sh:minCount"),
         Triple.mk (namedNode "ex:shape") (namedNode "sh:minCount")
           (Term.mk TermType.Literal "1"),
         Triple.mk (namedNode "ex:shape") sh_target (namedNode "ex:t")]
        (parametersMapOf
          [Triple.mk (namedNode "ex:MinCountComponent") rdf_type sh_ConstraintComponent,
           Triple.mk (namedNode "ex:MinCountComponent") sh_parameter (namedNode "ex:p"),
           Triple.mk (namedNode "ex:p") sh_path (namedNode "sh:minCount"),
           Triple.mk (namedNode "ex:shape") (namedNode "sh:minCount")
             (Term.mk TermType.Literal "1"),
           Triple.mk (namedNode "ex:shape") sh_target (namedNode "ex:t")])) ∧
    Shape.getTargetNodes
        [Triple.mk (namedNode "ex:MinCountComponent") rdf_type sh_ConstraintComponent,
         Triple.mk (namedNode "ex:MinCountComponent") sh_parameter (namedNode "ex:p"),
         Triple.mk (namedNode "ex:p") sh_path (namedNode "sh:minCount"),
         Triple.mk (namedNode "ex:shape") (namedNode "sh:minCount")
           (Term.mk TermType.Literal "1"),
         Triple.mk (namedNode "ex:shape") sh_target (namedNode "ex:t")]
        (Shape.build
          [Triple.mk (namedNode "ex:MinCountComponent") rdf_type sh_ConstraintComponent,
           Triple.mk (namedNode "ex:MinCountComponent") sh_parameter (namedNode "ex:p"),
           Triple.mk (namedNode "ex:p") sh_path (namedNode "sh:minCount"),
           Triple.mk (namedNode "ex:shape") (namedNode "sh:minCount")
             (Term.mk TermType.Literal "1"),
           Triple.mk (namedNode "ex:shape") sh_target (namedNode "ex:t")]
          (parametersMapOf
            [Triple.mk (namedNode "ex:MinCountComponent") rdf_type sh_ConstraintComponent,
             Triple.mk (namedNode "ex:MinCountComponent") sh_parameter (namedNode "ex:p"),
             Triple.mk (namedNode "ex:p") sh_path (namedNode "sh:minCount"),
             Triple.mk (namedNode "ex:shape") (namedNode "sh:minCount")
               (Term.mk TermType.Literal "1"),
             Triple.mk (namedNode "ex:shape") sh_target (namedNode "ex:t")])
          (namedNode "ex:shape"))
        [Triple.mk (namedNode "ex:d") rdf_type (namedNode "ex:shape")] = [] := by
  have h := generic_target_recognized_never_resolved
    [Triple.mk (namedNode "ex:MinCountComponent") rdf_type sh_ConstraintComponent,
     Triple.mk (namedNode "ex:MinCountComponent") sh_parameter (namedNode "ex:p"),
     Triple.mk (namedNode "ex:p") sh_path (namedNode "sh:minCount"),
     Triple.mk (namedNode "ex:shape") (namedNode "sh:minCount")
       (Term.mk TermType.Literal "1"),
     Triple.mk (namedNode "ex:shape") sh_target (namedNode "ex:t")]
    (namedNode "ex:shape")
    (by decide) (by decide) (by decide) (by decide) (by decide) (by decide) (by decide)
  exact ⟨h.1, h.2 [Triple.mk (namedNode "ex:d") rdf_type (namedNode "ex:shape")]⟩

theorem mem_freshOf {step : Term → List Term} {bound acc : List Term} {y : Term} :
    y ∈ freshOf step bound acc ↔
      y ∈ acc.flatMap step ∧ y ∈ bound ∧ y ∉ acc := by
  unfold freshOf
  rw [List.mem_dedup, List.mem_filter]
  simp only [Bool.and_eq_true, decide_eq_true_eq, Bool.not_eq_true',
    decide_eq_false_iff_not]

theorem sat_subset (step : Term → List Term) (bound acc : List Term) :
    ∀ x ∈ acc, x ∈ saturate step bound acc := by
  induction acc using saturate.induct step bound with
  | case1 acc h => rw [saturate, dif_pos h]; exact fun x hx => hx
  | case2 acc h ih =>
    rw [saturate, dif_neg h]
    exact fun x hx => ih x (List.mem_append_left _ hx)

theorem sat_in_bound (step : Term → List Term) (bound acc : List Term) :
    ∀ x ∈ saturate step bound acc, x ∈ acc ∨ x ∈ bound := by
  induction acc using saturate.induct step bound with
  | case1 acc h =>
    rw [saturate, dif_pos h]
    exact fun x hx => Or.inl hx
  | case2 acc h ih =>
    rw [saturate, dif_neg h]
    intro x hx
    rcases ih x hx with hmem | hmem
    · rcases List.mem_append.mp hmem with hmem | hmem
      · exact Or.inl hmem
      · exact Or.inr (mem_freshOf.mp hmem).2.1
    · exact Or.inr hmem

theorem sat_nodup (step : Term → List Term) (bound acc : List Term) :
    acc.Nodup → (saturate step bound acc).Nodup := by
  induction acc using saturate.induct step bound with
  | case1 acc h =>
    intro hnd
    rw [saturate, dif_pos h]
    exact hnd
  | case2 acc h ih =>
    intro hnd
    rw [saturate, dif_neg h]
    apply ih
    rw [List.nodup_append]
    refine ⟨hnd, List.nodup_dedup _, ?_⟩
    intro a ha hb
    exact (mem_freshOf.mp hb).2.2 ha

theorem sat_closed (step : Term → List Term) (bound acc : List Term) :
    ∀ x ∈ saturate step bound acc, ∀ y ∈ step x, y ∈ bound →
      y ∈ saturate step bound acc := by
  induction acc using saturate.induct step bound with
  | case1 acc h =>
    rw [saturate, dif_pos h]
    intro x hx y hy hyb
    by_cases hya : y ∈ acc
    · exact hya
    · exfalso
      have : y ∈ freshOf step bound acc :=
        mem_freshOf.mpr ⟨List.mem_flatMap.mpr ⟨x, hx, hy⟩, hyb, hya⟩
      rw [h] at this
      exact List.not_mem_nil y this
  | case2 acc h ih =>
    rw [saturate, dif_neg h]
    exact ih

theorem sat_sound (step : Term → List Term) (bound acc : List Term) :
    ∀ x ∈ saturate step bound acc,
      ∃ a ∈ acc, Relation.ReflTransGen (fun u v => v ∈ step u) a x := by
  induction acc using saturate.induct step bound with
  | case1 acc h =>
    rw [saturate, dif_pos h]
    exact fun x hx => ⟨x, hx, Relation.ReflTransGen.refl⟩
  | case2 acc h ih =>
    rw [saturate, dif_neg h]
    intro x hx
    obtain ⟨a, ha, hrt⟩ := ih x hx
    rcases List.mem_append.mp ha with ha | ha
    · exact ⟨a, ha, hrt⟩
    · obtain ⟨b, hb, hab⟩ := List.mem_flatMap.mp (mem_freshOf.mp ha).1
      exact ⟨b, hb, Relation.ReflTransGen.head hab hrt⟩

theorem mem_termsOf_of_o {g : Graph} {tr : Triple} (h : tr ∈ g) :
    tr.o ∈ termsOf g := by
  unfold termsOf
  rw [List.mem_flatMap]
  exact ⟨tr, h, by simp⟩

theorem mem_of_mem_getNodeArrayObj {d : Graph} {x p y : Term}
    (h : y ∈ getNodeArrayObj d x p) : y ∈ termsOf d := by
  unfold getNodeArrayObj at h
  obtain ⟨tr, htr, rfl⟩ := List.mem_map.mp h
  exact mem_termsOf_of_o (List.mem_of_mem_filter htr)

theorem evalBound_aux (n : Nat) :
    (∀ pe : PathExpr, sizeOf pe ≤ n → ∀ (d : Graph) (x y : Term),
      y ∈ evalPath d pe x → y ∈ termsOf d ∨ y = x) ∧
    (∀ ps : List PathExpr, sizeOf ps ≤ n → ∀ (d : Graph) (acc : List Term) (y : Term),
      y ∈ evalSeq d ps acc → y ∈ termsOf d ∨ y ∈ acc) ∧
    (∀ ps : List PathExpr, sizeOf ps ≤ n → ∀ (d : Graph) (x y : Term),
      y ∈ evalAlts d ps x → y ∈ termsOf d ∨ y = x) := by
  induction n with
  | zero =>
    refine ⟨?_, ?_, ?_⟩
    · intro pe hpe
      exfalso
      cases pe <;> simp only [PathExpr.predicate.sizeOf_spec, PathExpr.sequence.sizeOf_spec,
        PathExpr.alternatives.sizeOf_spec, PathExpr.zeroOrMore.sizeOf_spec,
        PathExpr.oneOrMore.sizeOf_spec, PathExpr.zeroOrOne.sizeOf_spec,
        PathExpr.inverse.sizeOf_spec] at hpe <;> omega
    · intro ps hps
      exfalso
      cases ps <;> simp only [List.nil.sizeOf_spec, List.cons.sizeOf_spec] at hps <;> omega
    · intro ps hps
      exfalso
      cases ps <;> simp only [List.nil.sizeOf_spec, List.cons.sizeOf_spec] at hps <;> omega
  | succ n ih =>
    obtain ⟨ih1, ih2, ih3⟩ := ih
    refine ⟨?_, ?_, ?_⟩
    · intro pe hpe d x y hy
      cases pe with
      | predicate p =>
        rw [evalPath] at hy
        exact Or.inl (mem_of_mem_getNodeArrayObj hy)
      | sequence ps =>
        rw [evalPath] at hy
        have hsz : sizeOf ps ≤ n := by
          simp only [PathExpr.sequence.sizeOf_spec] at hpe
          omega
        rcases ih2 ps hsz d [x] y hy with hb | hb
        · exact Or.inl hb
        · exact Or.inr (List.mem_singleton.mp hb)
      | alternatives ps =>
        rw [evalPath] at hy
        have hsz : sizeOf ps ≤ n := by
          simp only [PathExpr.alternatives.sizeOf_spec] at hpe
          omega
        exact ih3 ps hsz d x y (mem_nodeSetOf.mp hy)
      | zeroOrMore q =>
        rw [evalPath] at hy
        rcases sat_in_bound _ _ _ y hy with hb | hb
        · exact Or.inr (List.mem_singleton.mp hb)
        · exact Or.inl hb
      | oneOrMore q =>
        rw [evalPath] at hy
        have hsz : sizeOf q ≤ n := by
          simp only [PathExpr.oneOrMore.sizeOf_spec] at hpe
          omega
        rcases sat_in_bound _ _ _ y hy with hb | hb
        · exact ih1 q hsz d x y (mem_nodeSetOf.mp hb)
        · exact Or.inl hb
      | zeroOrOne q =>
        rw [evalPath] at hy
        have hsz : sizeOf q ≤ n := by
          simp only [PathExpr.zeroOrOne.sizeOf_spec] at hpe
          omega
        rcases List.mem_cons.mp (mem_nodeSetOf.mp hy) with hb | hb
        · exact Or.inr hb
        · exact ih1 q hsz d x y hb
      | inverse q =>
        rw [evalPath] at hy
        exact Or.inl (mem_nodeSetOf.mp (List.mem_of_mem_filter hy))
    · intro ps hps d acc y hy
      cases ps with
      | nil =>
        rw [evalSeq] at hy
        exact Or.inr hy
      | cons q qs =>
        rw [evalSeq] at hy
        have hsz : sizeOf q ≤ n ∧ sizeOf qs ≤ n := by
          simp only [List.cons.sizeOf_spec] at hps
          constructor <;> omega
        rcases ih2 qs hsz.2 d _ y hy with hb | hb
        · exact Or.inl hb
        · obtain ⟨z, hz, hyz⟩ := List.mem_flatMap.mp (mem_nodeSetOf.mp hb)
          rcases ih1 q hsz.1 d z y hyz with hc | hc
          · exact Or.inl hc
          · exact Or.inr (hc ▸ hz)
    · intro ps hps d x y hy
      cases ps with
      | nil =>
        rw [evalAlts] at hy
        exact absurd hy (List.not_mem_nil y)
      | cons q qs =>
        rw [evalAlts] at hy
        have hsz : sizeOf q ≤ n ∧ sizeOf qs ≤ n := by
          simp only [List.cons.sizeOf_spec] at hps
          constructor <;> omega
        rcases List.mem_append.mp hy with hb | hb
        · exact ih1 q hsz.1 d x y hb
        · exact ih3 qs hsz.2 d x y hb

/-- Every node produced by evaluating a path from `x` is a term of the
data graph or `x` itself. -/
theorem evalPath_output_bound (d : Graph) (pe : PathExpr) (x y : Term)
    (h : y ∈ evalPath d pe x) : y ∈ termsOf d ∨ y = x :=
  (evalBound_aux (sizeOf pe)).1 pe (le_refl _) d x y h

/-- Reachability through the path step relation, as produced by the
closure. -/
theorem sat_reach_closed (d : Graph) (q : PathExpr) (seeds : List Term)
    {y x : Term}
    (hy : y ∈ saturate (fun z => evalPath d q z) (termsOf d) seeds)
    (h : Relation.ReflTransGen (stepRel d q) y x) :
    x ∈ saturate (fun z => evalPath d q z) (termsOf d) seeds := by
  induction h with
  | refl => exact hy
  | tail h1 h2 ih =>
    rcases evalPath_output_bound d q _ _ h2 with hb | hb
    · exact sat_closed _ _ _ _ ih _ h2 hb
    · rw [hb]
      exact ih

/-- C9: evaluating a zero-or-more (or one-or-more) path over any data
graph — cyclic or not — produces a duplicate-free list (the closure never
revisits an accumulated node, and the evaluation is a total function, so
it terminates) containing exactly the nodes reachable from the focus node
through the sub-path's step relation (for one-or-more, through at least one
step). -/
theorem repetition_path_closure_exact (d : Graph) (q : PathExpr) (f x : Term) :
    ((evalPath d (PathExpr.zeroOrMore q) f).Nodup ∧
      (x ∈ evalPath d (PathExpr.zeroOrMore q) f ↔
        Relation.ReflTransGen (stepRel d q) f x)) ∧
    ((evalPath d (PathExpr.oneOrMore q) f).Nodup ∧
      (x ∈ evalPath d (PathExpr.oneOrMore q) f ↔
        ∃ y, stepRel d q f y ∧ Relation.ReflTransGen (stepRel d q) y x)) := by
  constructor
  · constructor
    · rw [evalPath]
      exact sat_nodup _ _ _ (List.nodup_singleton f)
    · rw [evalPath]
      constructor
      · intro hx
        obtain ⟨a, ha, hrt⟩ := sat_sound _ _ _ x hx
        rw [List.mem_singleton.mp ha] at hrt
        exact hrt
      · intro hrt
        exact sat_reach_closed d q [f]
          (sat_subset _ _ _ f (List.mem_singleton_self f)) hrt
  · constructor
    · rw [evalPath]
      exact sat_nodup _ _ _ nodup_nodeSetOf
    · rw [evalPath]
      constructor
      · intro hx
        obtain ⟨a, ha, hrt⟩ := sat_sound _ _ _ x hx
        exact ⟨a, mem_nodeSetOf.mp ha, hrt⟩
      · rintro ⟨y, hy, hrt⟩
        exact sat_reach_closed d q _
          (sat_subset _ _ _ y (mem_nodeSetOf.mpr hy)) hrt

theorem mem_matchSPO_sp {g : Graph} {s p : Term} {tr : Triple} :
    tr ∈ matchSPO g (some s) (some p) none ↔ tr ∈ g ∧ tr.s = s ∧ tr.p = p := by
  unfold matchSPO
  rw [List.mem_filter]
  simp only [Option.all_some, Option.all_none, Bool.and_eq_true, beq_iff_eq]
  constructor
  · rintro ⟨hg, ⟨⟨hs, hp⟩, _⟩⟩
    exact ⟨hg, hs.symm, hp.symm⟩
  · rintro ⟨hg, hs, hp⟩
    exact ⟨hg, ⟨⟨hs.symm, hp.symm⟩, trivial⟩⟩

theorem mem_matchSPO_s {g : Graph} {s : Term} {tr : Triple} :
    tr ∈ matchSPO g (some s) none none ↔ tr ∈ g ∧ tr.s = s := by
  unfold matchSPO
  rw [List.mem_filter]
  simp only [Option.all_some, Option.all_none, Bool.and_eq_true, beq_iff_eq]
  constructor
  · rintro ⟨hg, ⟨⟨hs, _⟩, _⟩⟩
    exact ⟨hg, hs.symm⟩
  · rintro ⟨hg, hs⟩
    exact ⟨hg, ⟨⟨hs.symm, trivial⟩, trivial⟩⟩

theorem hasSolution_sp_true_iff {g : Graph} {s p : Term} :
    hasSolution g (some s) (some p) none = true ↔
      ∃ tr ∈ g, tr.s = s ∧ tr.p = p := by
  unfold hasSolution
  rw [Bool.not_eq_true']
  constructor
  · intro h
    obtain ⟨tr, htr⟩ := List.exists_mem_of_ne_nil (matchSPO g (some s) (some p) none)
      (by
        intro hnil
        rw [hnil] at h
        exact Bool.noConfusion h)
    exact ⟨tr, (mem_matchSPO_sp.mp htr).1, (mem_matchSPO_sp.mp htr).2⟩
  · rintro ⟨tr, hg, hs, hp⟩
    rw [List.isEmpty_eq_false_iff_exists_mem]
    exact ⟨tr, mem_matchSPO_sp.mpr ⟨hg, hs, hp⟩⟩

theorem mem_componentsOf_eq_build {g : Graph} {c : ConstraintComponent}
    (h : c ∈ componentsOf g) : c = ConstraintComponent.build g c.node := by
  obtain ⟨node, _, rfl⟩ := List.mem_map.mp h
  rfl

theorem componentsOf_node_inj {g : Graph} {c c' : ConstraintComponent}
    (hc : c ∈ componentsOf g) (hc' : c' ∈ componentsOf g)
    (h : c'.node = c.node) : c' = c := by
  rw [mem_componentsOf_eq_build hc', h, ← mem_componentsOf_eq_build hc]

theorem parametersMapOf_inj {g : Graph} {c : ConstraintComponent}
    (hc : c ∈ componentsOf g) :
    ∀ (k : String) (c' : ConstraintComponent),
      lookupMap (parametersMapOf g) k = some c' → c'.node = c.node → c' = c := by
  intro k c' hlk hnode
  exact componentsOf_node_inj hc (lookupMap_mem hlk).1 hnode

theorem fold_single (g : Graph) (pm : ParametersMap) (sn : Term)
    (c : ConstraintComponent) (hlen : c.parameters.length = 1)
    (hinj : ∀ (k : String) (c' : ConstraintComponent), lookupMap pm k = some c' →
      c'.node = c.node → c' = c) :
    ∀ (ts : List Triple) (cs0 : List Constraint) (h0 : List Term), c.node ∉ h0 →
      ((ts.foldl (constraintStep g pm sn) (cs0, h0)).1.filter
          (fun k => decide (k.component = c)) =
        cs0.filter (fun k => decide (k.component = c)) ++
          (ts.filter (fun tr =>
            decide (getComponentWithParameter pm tr.p = some c))).map
            (fun tr => Constraint.build g sn c (some tr.o))) ∧
      c.node ∉ (ts.foldl (constraintStep g pm sn) (cs0, h0)).2 := by
  intro ts
  induction ts with
  | nil =>
    intro cs0 h0 hh
    exact ⟨by simp, hh⟩
  | cons tr ts ih =>
    intro cs0 h0 hh
    rw [List.foldl_cons]
    cases hlook : getComponentWithParameter pm tr.p with
    | none =>
      have hstep : constraintStep g pm sn (cs0, h0) tr = (cs0, h0) := by
        simp [constraintStep, hlook]
      rw [hstep, List.filter_cons_of_neg (by simp [hlook])]
      exact ih cs0 h0 hh
    | some c' =>
      by_cases hmem : c'.node ∈ h0
      · have hne : c' ≠ c := by
          intro heq
          rw [heq] at hmem
          exact hh hmem
        have hstep : constraintStep g pm sn (cs0, h0) tr = (cs0, h0) := by
          simp [constraintStep, hlook, hmem]
        rw [hstep, List.filter_cons_of_neg (by simp [hlook, hne])]
        exact ih cs0 h0 hh
      · by_cases hcc : c' = c
        · subst hcc
          have hstep : constraintStep g pm sn (cs0, h0) tr =
              (cs0 ++ [Constraint.build g sn c' (some tr.o)], h0) := by
            simp [constraintStep, hlook, hmem, hlen]
          rw [hstep, List.filter_cons_of_pos (by simp [hlook])]
          obtain ⟨h1, h2⟩ := ih (cs0 ++ [Constraint.build g sn c' (some tr.o)]) h0 hh
          refine ⟨?_, h2⟩
          rw [h1, List.filter_append, List.filter_cons_of_pos (by simp [Constraint.build]),
            List.filter_nil, List.map_cons, List.append_assoc]
          rfl
        · have hne' : c'.node ≠ c.node := by
            intro heq
            exact hcc (hinj tr.p.value c' hlook heq)
          by_cases hl1 : c'.parameters.length = 1
          · have hstep : constraintStep g pm sn (cs0, h0) tr =
                (cs0 ++ [Constraint.build g sn c' (some tr.o)], h0) := by
              simp [constraintStep, hlook, hmem, hl1]
            rw [hstep, List.filter_cons_of_neg (by simp [hlook, hcc])]
            obtain ⟨h1, h2⟩ := ih (cs0 ++ [Constraint.build g sn c' (some tr.o)]) h0 hh
            refine ⟨?_, h2⟩
            rw [h1, List.filter_append, List.filter_cons_of_neg (by simp [Constraint.build, hcc]),
              List.filter_nil, List.append_nil]
          · by_cases hcp : c'.isComplete g sn = true
            · have hstep : constraintStep g pm sn (cs0, h0) tr =
                  (cs0 ++ [Constraint.build g sn c' none], addNode h0 c'.node) := by
                simp [constraintStep, hlook, hmem, hl1, hcp]
              have hh' : c.node ∉ addNode h0 c'.node := by
                intro hmem'
                rcases mem_addNode.mp hmem' with hmem' | hmem'
                · exact hh hmem'
                · exact hne' hmem'.symm
              rw [hstep, List.filter_cons_of_neg (by simp [hlook, hcc])]
              obtain ⟨h1, h2⟩ := ih (cs0 ++ [Constraint.build g sn c' none])
                (addNode h0 c'.node) hh'
              refine ⟨?_, h2⟩
              rw [h1, List.filter_append, List.filter_cons_of_neg (by simp [Constraint.build, hcc]),
                List.filter_nil, List.append_nil]
            · have hstep : constraintStep g pm sn (cs0, h0) tr = (cs0, h0) := by
                simp [constraintStep, hlook, hmem, hl1, hcp]
              rw [hstep, List.filter_cons_of_neg (by simp [hlook, hcc])]
              exact ih cs0 h0 hh

theorem fold_multi (g : Graph) (pm : ParametersMap) (sn : Term)
    (c : ConstraintComponent) (hlen : c.parameters.length ≠ 1)
    (hinj : ∀ (k : String) (c' : ConstraintComponent), lookupMap pm k = some c' →
      c'.node = c.node → c' = c) :
    ∀ (ts : List Triple) (cs0 : List Constraint) (h0 : List Term),
      (c.node ∈ h0 →
        ((ts.foldl (constraintStep g pm sn) (cs0, h0)).1.filter
            (fun k => decide (k.component = c)) =
          cs0.filter (fun k => decide (k.component = c)) ∧
          c.node ∈ (ts.foldl (constraintStep g pm sn) (cs0, h0)).2)) ∧
      (c.node ∉ h0 → c.isComplete g sn = false →
        ((ts.foldl (constraintStep g pm sn) (cs0, h0)).1.filter
            (fun k => decide (k.component = c)) =
          cs0.filter (fun k => decide (k.component = c)) ∧
          c.node ∉ (ts.foldl (constraintStep g pm sn) (cs0, h0)).2)) ∧
      (c.node ∉ h0 → c.isComplete g sn = true →
        ((ts.foldl (constraintStep g pm sn) (cs0, h0)).1.filter
            (fun k => decide (k.component = c)) =
          cs0.filter (fun k => decide (k.component = c)) ++
            (if ts.any (fun tr =>
                decide (getComponentWithParameter pm tr.p = some c))
              then [Constraint.build g sn c none] else []) ∧
          (c.node ∈ (ts.foldl (constraintStep g pm sn) (cs0, h0)).2 ↔
            ts.any (fun tr =>
              decide (getComponentWithParameter pm tr.p = some c)) = true))) := by
  intro ts
  induction ts with
  | nil =>
    intro cs0 h0
    refine ⟨fun hm => ⟨rfl, hm⟩, fun hm _ => ⟨rfl, hm⟩, fun hm _ => ⟨by simp, ?_⟩⟩
    simp only [List.any_nil]
    constructor
    · intro hx
      exact absurd hx hm
    · intro hx
      exact Bool.noConfusion hx
  | cons tr ts ih =>
    intro cs0 h0
    rw [List.foldl_cons]
    cases hlook : getComponentWithParameter pm tr.p with
    | none =>
      have hstep : constraintStep g pm sn (cs0, h0) tr = (cs0, h0) := by
        simp [constraintStep, hlook]
      have hany : ((tr :: ts).any (fun tr =>
          decide (getComponentWithParameter pm tr.p = some c))) =
          (ts.any (fun tr =>
            decide (getComponentWithParameter pm tr.p = some c))) := by
        simp [hlook]
      rw [hstep, hany]
      exact ih cs0 h0
    | some c' =>
      by_cases hcc : c' = c
      · subst hcc
        refine ⟨?_, ?_, ?_⟩
        · intro hmem
          have hstep : constraintStep g pm sn (cs0, h0) tr = (cs0, h0) := by
            simp [constraintStep, hlook, hmem]
          rw [hstep]
          exact (ih cs0 h0).1 hmem
        · intro hmem hcF
          have hstep : constraintStep g pm sn (cs0, h0) tr = (cs0, h0) := by
            simp [constraintStep, hlook, hmem, hlen, hcF]
          rw [hstep]
          exact (ih cs0 h0).2.1 hmem hcF
        · intro hmem hcT
          have hstep : constraintStep g pm sn (cs0, h0) tr =
              (cs0 ++ [Constraint.build g sn c' none], addNode h0 c'.node) := by
            simp [constraintStep, hlook, hmem, hlen, hcT]
          rw [hstep]
          obtain ⟨h1, h2⟩ := (ih (cs0 ++ [Constraint.build g sn c' none])
            (addNode h0 c'.node)).1 (mem_addNode.mpr (Or.inr rfl))
          constructor
          · rw [h1, List.filter_append,
              List.filter_cons_of_pos (by simp [Constraint.build]), List.filter_nil]
            have hany : ((tr :: ts).any (fun tr =>
                decide (getComponentWithParameter pm tr.p = some c'))) = true := by
              simp [hlook]
            rw [hany, if_pos rfl]
          · refine ⟨fun _ => by simp [hlook], fun _ => h2⟩
      · have hne' : c'.node ≠ c.node := by
          intro heq
          exact hcc (hinj tr.p.value c' hlook heq)
        have hany : ((tr :: ts).any (fun tr =>
            decide (getComponentWithParameter pm tr.p = some c))) =
            (ts.any (fun tr =>
              decide (getComponentWithParameter pm tr.p = some c))) := by
          simp [hlook, hcc]
        rw [hany]
        by_cases hmem' : c'.node ∈ h0
        · have hstep : constraintStep g pm sn (cs0, h0) tr = (cs0, h0) := by
            simp [constraintStep, hlook, hmem']
          rw [hstep]
          exact ih cs0 h0
        · by_cases hl1 : c'.parameters.length = 1
          · have hstep : constraintStep g pm sn (cs0, h0) tr =
                (cs0 ++ [Constraint.build g sn c' (some tr.o)], h0) := by
              simp [constraintStep, hlook, hmem', hl1]
            rw [hstep]
            have hfilter : ((cs0 ++ [Constraint.build g sn c' (some tr.o)]).filter
                (fun k => decide (k.component = c))) =
                cs0.filter (fun k => decide (k.component = c)) := by
              rw [List.filter_append,
                List.filter_cons_of_neg (by simp [Constraint.build, hcc]),
                List.filter_nil, List.append_nil]
            have ihn := ih (cs0 ++ [Constraint.build g sn c' (some tr.o)]) h0
            rw [hfilter] at ihn
            exact ihn
          · by_cases hcp : c'.isComplete g sn = true
            · have hstep : constraintStep g pm sn (cs0, h0) tr =
                  (cs0 ++ [Constraint.build g sn c' none], addNode h0 c'.node) := by
                simp [constraintStep, hlook, hmem', hl1, hcp]
              rw [hstep]
              have hfilter : ((cs0 ++ [Constraint.build g sn c' none]).filter
                  (fun k => decide (k.component = c))) =
                  cs0.filter (fun k => decide (k.component = c)) := by
                rw [List.filter_append,
                  List.filter_cons_of_neg (by simp [Constraint.build, hcc]),
                  List.filter_nil, List.append_nil]
              have ihn := ih (cs0 ++ [Constraint.build g sn c' none])
                (addNode h0 c'.node)
              rw [hfilter] at ihn
              have hout : ∀ hm : c.node ∉ h0, c.node ∉ addNode h0 c'.node := by
                intro hm hx
                rcases mem_addNode.mp hx with hx | hx
                · exact hm hx
                · exact hne' hx.symm
              exact ⟨fun hm => ihn.1 (mem_addNode.mpr (Or.inl hm)),
                fun hm hcF => ihn.2.1 (hout hm) hcF,
                fun hm hcT => ihn.2.2 (hout hm) hcT⟩
            · have hstep : constraintStep g pm sn (cs0, h0) tr = (cs0, h0) := by
                simp [constraintStep, hlook, hmem', hl1, hcp]
              rw [hstep]
              exact ih cs0 h0

theorem isComplete_true_iff (g : Graph) (n : Term) (c : ConstraintComponent) :
    c.isComplete g n = true ↔
      ∀ p ∈ c.parameters, c.isOptional p.value = false →
        hasSolution g (some n) (some p) none = true := by
  unfold ConstraintComponent.isComplete
  rw [List.all_eq_true]
  constructor
  · intro h p hp hopt
    have hor := h p hp
    rw [hopt] at hor
    simpa using hor
  · intro h p hp
    cases hopt : c.isOptional p.value
    · simp [h p hp hopt]
    · simp [hopt]

/-- C2: during shape construction, each outgoing triple whose predicate is
a registered parameter yields, for a single-parameter component, one
constraint per matching triple bound to that triple's object (so a twice
asserted parameter yields two constraints); for a multi-parameter
component, the shape carries at most one constraint, present exactly when
the component is complete on the node and some matching triple exists —
an incomplete declaration is skipped silently (construction is total, no
error is raised). -/
theorem constraint_instantiation_per_component (g : Graph) (n : Term)
    (c : ConstraintComponent) (hc : c ∈ componentsOf g) :
    (c.parameters.length = 1 →
      (buildConstraints g (parametersMapOf g) n).filter
          (fun k => decide (k.component = c)) =
        ((matchSPO g (some n) none none).filter (fun tr =>
          decide (getComponentWithParameter (parametersMapOf g) tr.p = some c))).map
          (fun tr => Constraint.build g n c (some tr.o))) ∧
    (c.parameters.length ≠ 1 →
      (buildConstraints g (parametersMapOf g) n).filter
          (fun k => decide (k.component = c)) =
        (if c.isComplete g n = true ∧
            ((matchSPO g (some n) none none).any (fun tr =>
              decide (getComponentWithParameter (parametersMapOf g) tr.p = some c))
              = true)
          then [Constraint.build g n c none] else [])) := by
  constructor
  · intro hlen
    have h := (fold_single g (parametersMapOf g) n c hlen (parametersMapOf_inj hc)
      (matchSPO g (some n) none none) [] [] (List.not_mem_nil _)).1
    unfold buildConstraints
    simpa using h
  · intro hlen
    cases hcomp : c.isComplete g n with
    | false =>
      have h := ((fold_multi g (parametersMapOf g) n c hlen (parametersMapOf_inj hc)
        (matchSPO g (some n) none none) [] []).2.1 (List.not_mem_nil _) hcomp).1
      unfold buildConstraints
      rw [if_neg (by rintro ⟨h1, _⟩; exact Bool.noConfusion h1)]
      simpa using h
    | true =>
      have h := ((fold_multi g (parametersMapOf g) n c hlen (parametersMapOf_inj hc)
        (matchSPO g (some n) none none) [] []).2.2 (List.not_mem_nil _) hcomp).1
      unfold buildConstraints
      by_cases hany : ((matchSPO g (some n) none none).any (fun tr =>
          decide (getComponentWithParameter (parametersMapOf g) tr.p = some c)) = true)
      · rw [if_pos ⟨rfl, hany⟩]
        rw [if_pos hany] at h
        simpa using h
      · rw [if_neg (by rintro ⟨_, h2⟩; exact hany h2)]
        rw [if_neg hany] at h
        simpa using h

/-- C2 witness: a single-parameter component whose parameter is asserted
twice on one shape node yields exactly one constraint per assertion. -/
theorem constraint_instantiation_per_component_witness :
    (buildConstraints
        [Triple.mk (namedNode "ex:C") rdf_type sh_ConstraintComponent,
         Triple.mk (namedNode "ex:C") sh_parameter (namedNode "ex:P"),
         Triple.mk (namedNode "ex:P") sh_path (namedNode "ex:q"),
         Triple.mk (namedNode "ex:S") (namedNode "ex:q") (Term.mk TermType.Literal "1"),
         Triple.mk (namedNode "ex:S") (namedNode "ex:q") (Term.mk TermType.Literal "2")]
        (parametersMapOf
          [Triple.mk (namedNode "ex:C") rdf_type sh_ConstraintComponent,
           Triple.mk (namedNode "ex:C") sh_parameter (namedNode "ex:P"),
           Triple.mk (namedNode "ex:P") sh_path (namedNode "ex:q"),
           Triple.mk (namedNode "ex:S") (namedNode "ex:q") (Term.mk TermType.Literal "1"),
           Triple.mk (namedNode "ex:S") (namedNode "ex:q") (Term.mk TermType.Literal "2")])
        (namedNode "ex:S")).filter
        (fun k => decide (k.component = ConstraintComponent.build
          [Triple.mk (namedNode "ex:C") rdf_type sh_ConstraintComponent,
           Triple.mk (namedNode "ex:C") sh_parameter (namedNode "ex:P"),
           Triple.mk (namedNode "ex:P") sh_path (namedNode "ex:q"),
           Triple.mk (namedNode "ex:S") (namedNode "ex:q") (Term.mk TermType.Literal "1"),
           Triple.mk (namedNode "ex:S") (namedNode "ex:q") (Term.mk TermType.Literal "2")]
          (namedNode "ex:C"))) =
      ((matchSPO
          [Triple.mk (namedNode "ex:C") rdf_type sh_ConstraintComponent,
           Triple.mk (namedNode "ex:C") sh_parameter (namedNode "ex:P"),
           Triple.mk (namedNode "ex:P") sh_path (namedNode "ex:q"),
           Triple.mk (namedNode "ex:S") (namedNode "ex:q") (Term.mk TermType.Literal "1"),
           Triple.mk (namedNode "ex:S") (namedNode "ex:q") (Term.mk TermType.Literal "2")]
          (some (namedNode "ex:S")) none none).filter (fun tr =>
        decide (getComponentWithParameter
          (parametersMapOf
            [Triple.mk (namedNode "ex:C") rdf_type sh_ConstraintComponent,
             Triple.mk (namedNode "ex:C") sh_parameter (namedNode "ex:P"),
             Triple.mk (namedNode "ex:P") sh_path (namedNode "ex:q"),
             Triple.mk (namedNode "ex:S") (namedNode "ex:q") (Term.mk TermType.Literal "1"),
             Triple.mk (namedNode "ex:S") (namedNode "ex:q") (Term.mk TermType.Literal "2")])
          tr.p = some (ConstraintComponent.build
            [Triple.mk (namedNode "ex:C") rdf_type sh_ConstraintComponent,
             Triple.mk (namedNode "ex:C") sh_parameter (namedNode "ex:P"),
             Triple.mk (namedNode "ex:P") sh_path (namedNode "ex:q"),
             Triple.mk (namedNode "ex:S") (namedNode "ex:q") (Term.mk TermType.Literal "1"),
             Triple.mk (namedNode "ex:S") (namedNode "ex:q") (Term.mk TermType.Literal "2")]
            (namedNode "ex:C"))))).map
        (fun tr => Constraint.build
          [Triple.mk (namedNode "ex:C") rdf_type sh_ConstraintComponent,
           Triple.mk (namedNode "ex:C") sh_parameter (namedNode "ex:P"),
           Triple.mk (namedNode "ex:P") sh_path (namedNode "ex:q"),
           Triple.mk (namedNode "ex:S") (namedNode "ex:q") (Term.mk TermType.Literal "1"),
           Triple.mk (namedNode "ex:S") (namedNode "ex:q") (Term.mk TermType.Literal "2")]
          (namedNode "ex:S")
          (ConstraintComponent.build
            [Triple.mk (namedNode "ex:C") rdf_type sh_ConstraintComponent,
             Triple.mk (namedNode "ex:C") sh_parameter (namedNode "ex:P"),
             Triple.mk (namedNode "ex:P") sh_path (namedNode "ex:q"),
             Triple.mk (namedNode "ex:S") (namedNode "ex:q") (Term.mk TermType.Literal "1"),
             Triple.mk (namedNode "ex:S") (namedNode "ex:q") (Term.mk TermType.Literal "2")]
            (namedNode "ex:C"))
          (some tr.o)) :=
  (constraint_instantiation_per_component
    [Triple.mk (namedNode "ex:C") rdf_type sh_ConstraintComponent,
     Triple.mk (namedNode "ex:C") sh_parameter (namedNode "ex:P"),
     Triple.mk (namedNode "ex:P") sh_path (namedNode "ex:q"),
     Triple.mk (namedNode "ex:S") (namedNode "ex:q") (Term.mk TermType.Literal "1"),
     Triple.mk (namedNode "ex:S") (namedNode "ex:q") (Term.mk TermType.Literal "2")]
    (namedNode "ex:S")
    (ConstraintComponent.build
      [Triple.mk (namedNode "ex:C") rdf_type sh_ConstraintComponent,
       Triple.mk (namedNode "ex:C") sh_parameter (namedNode "ex:P"),
       Triple.mk (namedNode "ex:P") sh_path (namedNode "ex:q"),
       Triple.mk (namedNode "ex:S") (namedNode "ex:q") (Term.mk TermType.Literal "1"),
       Triple.mk (namedNode "ex:S") (namedNode "ex:q") (Term.mk TermType.Literal "2")]
      (namedNode "ex:C"))
    (by decide)).1 (by decide)

/-- C3: `isComplete` holds exactly when every required (non-optional)
parameter has a matching triple on the shape node; for an all-required
component missing one parameter on a node, `isComplete` is false and the
shape built for that node carries no constraint for the component. -/
theorem isComplete_gates_constraints (g : Graph) (n : Term)
    (c : ConstraintComponent) :
    (c.isComplete g n = true ↔
      ∀ p ∈ c.parameters, c.isOptional p.value = false →
        hasSolution g (some n) (some p) none = true) ∧
    (∀ p0 : Term, c ∈ componentsOf g → c.optionals = [] → p0 ∈ c.parameters →
      (∀ tr ∈ g, tr.s = n → tr.p.value ≠ p0.value) →
      c.isComplete g n = false ∧
      (buildConstraints g (parametersMapOf g) n).filter
        (fun k => decide (k.component = c)) = []) := by
  refine ⟨isComplete_true_iff g n c, ?_⟩
  intro p0 hcin hoptnil hp0 hnotr
  have hopt0 : c.isOptional p0.value = false := by
    unfold ConstraintComponent.isOptional
    rw [hoptnil]
    rfl
  have hnosol : hasSolution g (some n) (some p0) none = false := by
    cases hs : hasSolution g (some n) (some p0) none with
    | false => rfl
    | true =>
      exfalso
      obtain ⟨tr, htg, hts, htp⟩ := hasSolution_sp_true_iff.mp hs
      exact hnotr tr htg hts (by rw [htp])
  have hfalse : c.isComplete g n = false := by
    cases hic : c.isComplete g n with
    | false => rfl
    | true =>
      exfalso
      have := (isComplete_true_iff g n c).mp hic p0 hp0 hopt0
      rw [hnosol] at this
      exact Bool.noConfusion this
  refine ⟨hfalse, ?_⟩
  by_cases hlen : c.parameters.length = 1
  · have h := (fold_single g (parametersMapOf g) n c hlen (parametersMapOf_inj hcin)
      (matchSPO g (some n) none none) [] [] (List.not_mem_nil _)).1
    have hempty : ((matchSPO g (some n) none none).filter (fun tr =>
        decide (getComponentWithParameter (parametersMapOf g) tr.p = some c))) = [] := by
      rw [List.filter_eq_nil_iff]
      intro tr htr
      simp only [decide_eq_true_eq]
      intro hlk
      have hdecl := (lookupMap_mem hlk).2
      unfold declaresParam at hdecl
      rw [decide_eq_true_eq] at hdecl
      obtain ⟨a, ha⟩ := List.length_eq_one.mp hlen
      have hp0a : p0 = a := by
        rw [ha] at hp0
        exact List.mem_singleton.mp hp0
      rw [ha] at hdecl
      simp only [List.map_cons, List.map_nil, List.mem_singleton] at hdecl
      obtain ⟨hgmem, hsn⟩ := mem_matchSPO_s.mp htr
      exact hnotr tr hgmem hsn (by rw [hdecl, ← hp0a])
    rw [hempty] at h
    unfold buildConstraints
    simpa using h
  · have h := ((fold_multi g (parametersMapOf g) n c hlen (parametersMapOf_inj hcin)
      (matchSPO g (some n) none none) [] []).2.1 (List.not_mem_nil _) hfalse).1
    unfold buildConstraints
    simpa using h

/-- C3 witness: a two-parameter (all required) component and a shape node
asserting only one of the parameters. -/
theorem isComplete_gates_constraints_witness :
    (ConstraintComponent.build
        [Triple.mk (namedNode "ex:C") rdf_type sh_ConstraintComponent,
         Triple.mk (namedNode "ex:C") sh_parameter (namedNode "ex:P1"),
         Triple.mk (namedNode "ex:P1") sh_path (namedNode "ex:q1"),
         Triple.mk (namedNode "ex:C") sh_parameter (namedNode "ex:P2"),
         Triple.mk (namedNode "ex:P2") sh_path (namedNode "ex:q2"),
         Triple.mk (namedNode "ex:S") (namedNode "ex:q1") (Term.mk TermType.Literal "1")]
        (namedNode "ex:C")).isComplete
      [Triple.mk (namedNode "ex:C") rdf_type sh_ConstraintComponent,
       Triple.mk (namedNode "ex:C") sh_parameter (namedNode "ex:P1"),
       Triple.mk (namedNode "ex:P1") sh_path (namedNode "ex:q1"),
       Triple.mk (namedNode "ex:C") sh_parameter (namedNode "ex:P2"),
       Triple.mk (namedNode "ex:P2") sh_path (namedNode "ex:q2"),
       Triple.mk (namedNode "ex:S") (namedNode "ex:q1") (Term.mk TermType.Literal "1")]
      (namedNode "ex:S") = false ∧
    (buildConstraints
        [Triple.mk (namedNode "ex:C") rdf_type sh_ConstraintComponent,
         Triple.mk (namedNode "ex:C") sh_parameter (namedNode "ex:P1"),
         Triple.mk (namedNode "ex:P1") sh_path (namedNode "ex:q1"),
         Triple.mk (namedNode "ex:C") sh_parameter (namedNode "ex:P2"),
         Triple.mk (namedNode "ex:P2") sh_path (namedNode "ex:q2"),
         Triple.mk (namedNode "ex:S") (namedNode "ex:q1") (Term.mk TermType.Literal "1")]
        (parametersMapOf
          [Triple.mk (namedNode "ex:C") rdf_type sh_ConstraintComponent,
           Triple.mk (namedNode "ex:C") sh_parameter (namedNode "ex:P1"),
           Triple.mk (namedNode "ex:P1") sh_path (namedNode "ex:q1"),
           Triple.mk (namedNode "ex:C") sh_parameter (namedNode "ex:P2"),
           Triple.mk (namedNode "ex:P2") sh_path (namedNode "ex:q2"),
           Triple.mk (namedNode "ex:S") (namedNode "ex:q1")
             (Term.mk TermType.Literal "1")])
        (namedNode "ex:S")).filter
        (fun k => decide (k.component = ConstraintComponent.build
          [Triple.mk (namedNode "ex:C") rdf_type sh_ConstraintComponent,
           Triple.mk (namedNode "ex:C") sh_parameter (namedNode "ex:P1"),
           Triple.mk (namedNode "ex:P1") sh_path (namedNode "ex:q1"),
           Triple.mk (namedNode "ex:C") sh_parameter (namedNode "ex:P2"),
           Triple.mk (namedNode "ex:P2") sh_path (namedNode "ex:q2"),
           Triple.mk (namedNode "ex:S") (namedNode "ex:q1")
             (Term.mk TermType.Literal "1")]
          (namedNode "ex:C"))) = [] :=
  (isComplete_gates_constraints
    [Triple.mk (namedNode "ex:C") rdf_type sh_ConstraintComponent,
     Triple.mk (namedNode "ex:C") sh_parameter (namedNode "ex:P1"),
     Triple.mk (namedNode "ex:P1") sh_path (namedNode "ex:q1"),
     Triple.mk (namedNode "ex:C") sh_parameter (namedNode "ex:P2"),
     Triple.mk (namedNode "ex:P2") sh_path (namedNode "ex:q2"),
     Triple.mk (namedNode "ex:S") (namedNode "ex:q1") (Term.mk TermType.Literal "1")]
    (namedNode "ex:S")
    (ConstraintComponent.build
      [Triple.mk (namedNode "ex:C") rdf_type sh_ConstraintComponent,
       Triple.mk (namedNode "ex:C") sh_parameter (namedNode "ex:P1"),
       Triple.mk (namedNode "ex:P1") sh_path (namedNode "ex:q1"),
       Triple.mk (namedNode "ex:C") sh_parameter (namedNode "ex:P2"),
       Triple.mk (namedNode "ex:P2") sh_path (namedNode "ex:q2"),
       Triple.mk (namedNode "ex:S") (namedNode "ex:q1") (Term.mk TermType.Literal "1")]
      (namedNode "ex:C"))).2
    (namedNode "ex:q2") (by decide) (by decide) (by decide) (by decide)

end SHACL
